import Mathlib

/-!
Verification of the corpus vectorization subsystem of `src/server.py`
(an NLP microservice): corpus loading, whitespace tokenization,
first-occurrence vocabulary building, the TF / DF / IDF / TF-IDF
computation, the bag-of-words query vectorizer and the LSA endpoint.

Python strings are modelled as Lean `String`, Python `float` results of
`np.log` as real numbers, Python exact `int / int` division results as
rationals, and a Python runtime error (`ZeroDivisionError`) as `none` of
an `Option` result.
-/

namespace Server

/-- One step of scanning characters for Python `str.split()`:
`acc` holds the (reversed) characters of the token currently being read. -/
def splitWsAux : List Char → List Char → List (List Char)
  | [], acc => if acc.isEmpty then [] else [acc.reverse]
  | c :: cs, acc =>
    if c.isWhitespace then
      if acc.isEmpty then splitWsAux cs []
      else acc.reverse :: splitWsAux cs []
    else splitWsAux cs (c :: acc)

/-- Python `str.split()` with no argument: split on runs of whitespace,
discarding empty pieces.  Used by the tokenization loop (`doc.split()`,
`src/server.py:35`) and by `bag_of_words` (`text.lower().split()`,
`src/server.py:74`). -/
def pySplit (s : String) : List String :=
  (splitWsAux s.data []).map String.mk

/-- Python `str.lower()`, modelled character by character. -/
def pyLower (s : String) : String :=
  String.mk (s.data.map Char.toLower)

/-- Python `str.strip()` with no argument: remove leading and trailing
whitespace (`line.strip()`, `src/server.py:23`). -/
def pyStrip (s : String) : String :=
  String.mk (((s.data.dropWhile Char.isWhitespace).reverse.dropWhile
      Char.isWhitespace).reverse)

/-- `load_corpus` (`src/server.py:18-28`).  The file system is abstracted:
`none` stands for `FileNotFoundError` when opening `Корпус_Дмитрий.txt`,
`some lines` for the file's lines.  Each line is stripped and lowercased
and appended only if non-empty; on a missing file a one-document
placeholder corpus is returned. -/
def load_corpus (file : Option (List String)) : List String :=
  match file with
  | some lines =>
      lines.foldl
        (fun docs line =>
          let l := pyLower (pyStrip line)
          if l ≠ "" then docs ++ [l] else docs) []
  | none => ["файл корпус_дмитрий.txt не найден"]

/-- The tokenization loop (`src/server.py:33-35`): one whitespace split of
each document. -/
def tokens (documents : List String) : List (List String) :=
  documents.map (fun doc => pySplit doc)

/-- One iteration of the vocabulary loop body (`src/server.py:39-41`):
append `word` unless already present. -/
def vocabInsert (voc : List String) (word : String) : List String :=
  if word ∈ voc then voc else voc ++ [word]

/-- The vocabulary loop (`src/server.py:37-41`): scan the tokenized
documents in order, appending each unseen word. -/
def vocabulary (toks : List (List String)) : List String :=
  toks.foldl (fun voc doc => doc.foldl vocabInsert voc) []

/-- First-occurrence deduplication as the spec words it ("first-occurrence
-ordered deduplication across all tokens in document order"): keep each
word's first occurrence, drop later ones.  Spec-side definition, compared
with `vocabulary` in the refinement theorem for claim C4. -/
def specDedup : List String → List String
  | [] => []
  | w :: ws => w :: (specDedup ws).filter (fun v => decide (v ≠ w))

/-- One TF matrix entry (`src/server.py:53`):
`tokens[i].count(word) / len(tokens[i])`.  A zero-token document makes
Python raise `ZeroDivisionError`, modelled as `none`. -/
def tfEntry (doc : List String) (word : String) : Option ℚ :=
  if doc.length = 0 then none
  else some ((doc.count word : ℚ) / (doc.length : ℚ))

/-- Row `i` of the TF matrix (`src/server.py:50-53`): the inner loop over
vocabulary indices; a raised `ZeroDivisionError` (`none`) aborts the whole
row. -/
def tfRow : List String → List String → Option (List ℚ)
  | [], _ => some []
  | w :: ws, doc =>
      (tfEntry doc w).bind fun q => (tfRow ws doc).map fun qs => q :: qs

/-- Document frequency of a word (`src/server.py:54-55`): the number of
documents containing it at least once. -/
def dfCount (toks : List (List String)) (word : String) : ℕ :=
  (toks.filter (fun doc => decide (word ∈ doc))).length

/-- One IDF entry (`src/server.py:57`):
`np.log((doc_count + 1) / (df + 1)) + 1`, over the reals. -/
noncomputable def idf (doc_count df : ℕ) : ℝ :=
  Real.log (((doc_count : ℝ) + 1) / ((df : ℝ) + 1)) + 1

/-- `bag_of_words` (`src/server.py:72-81`): lowercase and split the query,
then a 0/1 presence vector over the vocabulary. -/
def bag_of_words (voc : List String) (text : String) : List ℤ :=
  voc.map (fun w => if w ∈ pySplit (pyLower text) then 1 else 0)

/-- The process-wide state the endpoints read (`documents`, `vocabulary`,
`tfidf_matrix`, `src/server.py:30-58`), built once at startup. -/
structure ServerState where
  documents : List String
  vocabulary : List String
  tfidf_matrix : List (List ℝ)

/-- The `/bag-of-words` endpoint (`src/server.py:72-81`) with the process
state made explicit: the handler reads `vocabulary` and returns a fresh
vector; it contains no assignment to any global, so the state is passed
through unchanged. -/
def bag_of_words_endpoint (st : ServerState) (text : String) :
    ServerState × List ℤ :=
  (st, bag_of_words st.vocabulary text)

/-- Possible outcomes of the `/lsa` endpoint as seen by a caller. -/
inductive LsaResult where
  | ok (matrix : List (List ℝ)) : LsaResult
  | validationError (msg : String) : LsaResult
  | libraryFailure (msg : String) : LsaResult

/-- The `/lsa` endpoint (`src/server.py:83-87`).  The external
`TruncatedSVD(n_components=...).fit_transform` routine is a parameter
`svd`; the handler body performs no check on `n_components` and returns
whatever the routine produces. -/
def lsa (svd : ℤ → List (List ℝ) → LsaResult)
    (tfidf_matrix : List (List ℝ)) (n_components : ℤ) : LsaResult :=
  svd n_components tfidf_matrix

/-- The example corpus of the spec (§8). -/
def exampleCorpus : List String := ["кот сидит на окне", "кот спит"]

/-- Tokenized documents of the example corpus. -/
def exampleToks : List (List String) := tokens exampleCorpus

/-- Vocabulary of the example corpus. -/
def exampleVocab : List String := vocabulary exampleToks

end Server

namespace Server

lemma tfRow_eq_map (voc doc : List String) (h : doc.length ≠ 0) :
    tfRow voc doc =
      some (voc.map fun w => (doc.count w : ℚ) / (doc.length : ℚ)) := by
  induction voc with
  | nil => simp [tfRow]
  | cons w ws ih => simp [tfRow, tfEntry, h, ih]

lemma mem_specDedup {x : String} : ∀ l : List String, x ∈ specDedup l ↔ x ∈ l
  | [] => by simp [specDedup]
  | w :: ws => by
      rw [specDedup]
      by_cases hx : x = w
      · subst hx; simp
      · simp [hx, List.mem_filter, mem_specDedup ws]

lemma nodup_specDedup : ∀ l : List String, (specDedup l).Nodup
  | [] => by simp [specDedup]
  | w :: ws => by
      rw [specDedup]
      refine List.Nodup.cons ?_ ((nodup_specDedup ws).filter _)
      simp [List.mem_filter]

lemma foldl_vocabInsert (l : List String) :
    ∀ v : List String,
      l.foldl vocabInsert v =
        v ++ (specDedup l).filter (fun w => decide (w ∉ v)) := by
  induction l with
  | nil => intro v; simp [specDedup]
  | cons w ws ih =>
      intro v
      rw [List.foldl_cons]
      by_cases hw : w ∈ v
      · rw [show vocabInsert v w = v from if_pos hw, ih v, specDedup,
          List.filter_cons]
        have : (decide (w ∉ v)) = false := by simp [hw]
        rw [this]
        simp only [List.filter_filter]
        congr 1
        apply List.filter_congr
        intro x _
        by_cases hxv : x ∈ v
        · simp [hxv]
        · have : x ≠ w := fun he => hxv (he ▸ hw)
          simp [hxv, this]
      · rw [show vocabInsert v w = v ++ [w] from if_neg hw, ih (v ++ [w]),
          specDedup, List.filter_cons]
        have : (decide (w ∉ v)) = true := by simp [hw]
        rw [this]
        simp only [List.filter_filter, List.append_assoc, List.singleton_append]
        congr 2
        apply List.filter_congr
        intro x _
        by_cases hxv : x ∈ v <;> by_cases hxw : x = w <;>
          simp [hxv, hxw, List.mem_append]

lemma vocabulary_eq_specDedup (toks : List (List String)) :
    vocabulary toks = specDedup toks.flatten := by
  rw [vocabulary, ← List.foldl_flatten vocabInsert [] toks,
    foldl_vocabInsert]
  simp

lemma load_corpus_some (lines : List String) :
    load_corpus (some lines) =
      ((lines.map fun line => pyLower (pyStrip line)).filter
        fun l => decide (l ≠ "")) := by
  show lines.foldl _ [] = _
  suffices h : ∀ acc : List String,
      lines.foldl
        (fun docs line =>
          let l := pyLower (pyStrip line)
          if l ≠ "" then docs ++ [l] else docs) acc =
      acc ++ ((lines.map fun line => pyLower (pyStrip line)).filter
        fun l => decide (l ≠ "")) by
    simpa using h []
  induction lines with
  | nil => intro acc; simp
  | cons a as ih =>
      intro acc
      rw [List.foldl_cons, ih, List.map_cons, List.filter_cons]
      by_cases h : pyLower (pyStrip a) = ""
      · simp [h]
      · simp [h]

lemma head_dropWhile {p : Char → Bool} :
    ∀ (l : List Char) {c : Char} {rest : List Char},
      l.dropWhile p = c :: rest → p c = false
  | [], c, rest => by simp [List.dropWhile]
  | x :: xs, c, rest => by
      rw [List.dropWhile_cons]
      by_cases hx : p x = true
      · rw [if_pos hx]; exact head_dropWhile xs
      · rw [if_neg hx]
        intro h
        cases h
        exact Bool.eq_false_iff.mpr hx

lemma mem_dropWhile_append {p : Char → Bool} {a : Char} (ha : ¬ p a = true) :
    ∀ xs : List Char, a ∈ (xs ++ [a]).dropWhile p := by
  intro xs
  induction xs with
  | nil => simp [List.dropWhile_cons, ha]
  | cons x xs ih =>
      rw [List.cons_append, List.dropWhile_cons]
      by_cases hx : p x = true
      · rw [if_pos hx]; exact ih
      · rw [if_neg hx]
        exact List.mem_cons_of_mem _
          (List.mem_append_right _ (List.mem_cons_self _ _))

lemma pyStrip_data (s : String) :
    (pyStrip s).data =
      ((s.data.dropWhile Char.isWhitespace).reverse.dropWhile
        Char.isWhitespace).reverse := rfl

lemma exists_nonws_of_pyStrip_ne_empty {s : String} (h : pyStrip s ≠ "") :
    ∃ c ∈ (pyStrip s).data, ¬ c.isWhitespace = true := by
  cases hme : s.data.dropWhile Char.isWhitespace with
  | nil =>
      exfalso
      apply h
      apply String.ext
      rw [pyStrip_data, hme]
      simp
  | cons c rest =>
      have hc : ¬ Char.isWhitespace c = true :=
        Bool.eq_false_iff.mp (head_dropWhile s.data hme)
      refine ⟨c, ?_, hc⟩
      rw [pyStrip_data, hme, List.reverse_cons]
      exact List.mem_reverse.mpr (mem_dropWhile_append hc rest.reverse)

lemma splitWsAux_ne_nil_of_acc :
    ∀ (l acc : List Char), acc ≠ [] → splitWsAux l acc ≠ [] := by
  intro l
  induction l with
  | nil =>
      intro acc h
      rw [splitWsAux]
      simp [List.isEmpty_iff, h]
  | cons c cs ih =>
      intro acc h
      rw [splitWsAux]
      by_cases hc : c.isWhitespace = true
      · rw [if_pos hc, if_neg (by simp [List.isEmpty_iff, h])]
        simp
      · rw [if_neg hc]
        exact ih (c :: acc) (by simp)

lemma splitWsAux_ne_nil {c : Char} (hw : ¬ c.isWhitespace = true) :
    ∀ (l : List Char), c ∈ l → ∀ acc, splitWsAux l acc ≠ [] := by
  intro l
  induction l with
  | nil => intro hc; cases hc
  | cons d ds ih =>
      intro hc acc
      rw [splitWsAux]
      by_cases hd : d.isWhitespace = true
      · have hcds : c ∈ ds := by
          rcases List.mem_cons.mp hc with h | h
          · exact absurd (h ▸ hd) hw
          · exact h
        by_cases ha : acc.isEmpty
        · rw [if_pos hd, if_pos ha]
          exact ih hcds []
        · rw [if_pos hd, if_neg ha]
          simp
      · rw [if_neg hd]
        exact splitWsAux_ne_nil_of_acc ds (d :: acc) (by simp)

lemma pySplit_ne_nil {s : String} {c : Char} (hc : c ∈ s.data)
    (hw : ¬ c.isWhitespace = true) : pySplit s ≠ [] := by
  rw [pySplit]
  intro h
  exact splitWsAux_ne_nil hw s.data hc [] (List.map_eq_nil_iff.mp h)

lemma toNat_ofNat_valid {n : ℕ} (h : n < 55296) :
    (Char.ofNat n).toNat = n := by
  unfold Char.ofNat
  rw [dif_pos (Or.inl h)]
  rfl

lemma not_ws_of_toNat_ge {c : Char} (h : 65 ≤ c.toNat) :
    c.isWhitespace = false := by
  simp only [Char.isWhitespace, Bool.or_eq_false_iff, decide_eq_false_iff_not]
  refine ⟨⟨⟨?_, ?_⟩, ?_⟩, ?_⟩ <;> intro he <;> rw [he] at h <;>
    exact absurd h (by decide)

lemma isWhitespace_toLower (c : Char) :
    (Char.toLower c).isWhitespace = c.isWhitespace := by
  unfold Char.toLower
  simp only []
  by_cases hc : c.toNat ≥ 65 ∧ c.toNat ≤ 90
  · rw [if_pos hc,
      not_ws_of_toNat_ge (c := Char.ofNat (c.toNat + 32))
        (by rw [toNat_ofNat_valid (by omega)]; omega),
      not_ws_of_toNat_ge (by omega)]
  · rw [if_neg hc]

lemma pyLower_data (s : String) :
    (pyLower s).data = s.data.map Char.toLower := rfl

lemma load_corpus_doc_ne_empty {file : Option (List String)} {d : String}
    (hd : d ∈ load_corpus file) : d ≠ "" ∧ pySplit d ≠ [] := by
  cases file with
  | none =>
      have : d = "файл корпус_дмитрий.txt не найден" := by
        simpa [load_corpus] using hd
      subst this
      exact ⟨by decide, by decide⟩
  | some lines =>
      rw [load_corpus_some] at hd
      rcases List.mem_filter.mp hd with ⟨hmem, hne⟩
      have hdne : d ≠ "" := by simpa using hne
      rcases List.mem_map.mp hmem with ⟨line, _, hline⟩
      have hstrip : pyStrip line ≠ "" := by
        intro h0
        apply hdne
        rw [← hline, h0]
        rfl
      rcases exists_nonws_of_pyStrip_ne_empty hstrip with ⟨c, hcm, hcw⟩
      have hcd : Char.toLower c ∈ d.data := by
        rw [← hline, pyLower_data]
        exact List.mem_map_of_mem _ hcm
      have hcw' : ¬ (Char.toLower c).isWhitespace = true := by
        rw [isWhitespace_toLower]
        exact hcw
      exact ⟨hdne, pySplit_ne_nil hcd hcw'⟩

lemma sum_map_add_nat (l : List String) (f g : String → ℕ) :
    (l.map fun x => f x + g x).sum = (l.map f).sum + (l.map g).sum := by
  induction l with
  | nil => simp
  | cons a as ih => simp [ih]; omega

lemma sum_map_ite_count (t : String) :
    ∀ voc : List String,
      (voc.map fun w => if t == w then (1 : ℕ) else 0).sum = voc.count t := by
  intro voc
  induction voc with
  | nil => simp
  | cons v vs ih =>
      rw [List.map_cons, List.sum_cons, ih, List.count_cons]
      by_cases h : t = v
      · simp [h, Nat.add_comm]
      · simp [h, Ne.symm h]

lemma sum_count_eq_length {voc : List String} (hnd : voc.Nodup) :
    ∀ doc : List String, (∀ t ∈ doc, t ∈ voc) →
      (voc.map fun w => doc.count w).sum = doc.length := by
  intro doc
  induction doc with
  | nil => intro _; simp
  | cons t d ih =>
      intro hsub
      have h1 : ∀ x ∈ d, x ∈ voc := fun x hx => hsub x (List.mem_cons_of_mem _ hx)
      have ht : t ∈ voc := hsub t (List.mem_cons_self _ _)
      simp only [List.count_cons]
      rw [sum_map_add_nat, ih h1, sum_map_ite_count,
        List.count_eq_one_of_mem hnd ht]
      simp

lemma sum_map_div_rat (l : List String) (f : String → ℚ) (n : ℚ) :
    (l.map fun x => f x / n).sum = (l.map f).sum / n := by
  induction l with
  | nil => simp
  | cons a as ih => simp [ih, div_add_div_same]

lemma sum_map_cast_rat (l : List String) (f : String → ℕ) :
    (l.map fun x => (f x : ℚ)).sum = ((l.map f).sum : ℚ) := by
  induction l with
  | nil => simp
  | cons a as ih => simp [ih]

lemma tfRow_sum_eq_one {voc doc : List String} (hnd : voc.Nodup)
    (hsub : ∀ t ∈ doc, t ∈ voc) (hne : doc.length ≠ 0) :
    ∃ r, tfRow voc doc = some r ∧ r.sum = 1 := by
  refine ⟨_, tfRow_eq_map voc doc hne, ?_⟩
  rw [sum_map_div_rat, sum_map_cast_rat, sum_count_eq_length hnd doc hsub]
  exact div_self (by exact_mod_cast hne)

lemma map_tf_eval (voc doc : List String) (cs : List ℕ)
    (hc : voc.map (fun w => doc.count w) = cs) :
    voc.map (fun w => (doc.count w : ℚ) / (doc.length : ℚ)) =
      cs.map (fun c : ℕ => (c : ℚ) / (doc.length : ℚ)) := by
  rw [← hc, List.map_map]
  rfl

/-- C1: on the corpus `["кот сидит на окне", "кот спит"]` the pipeline
produces the vocabulary `["кот","сидит","на","окне","спит"]` in that
order, TF row 0 `[1/4,1/4,1/4,1/4,0]`, TF row 1 `[1/2,0,0,0,1/2]`,
DF `[2,1,1,1,1]`, IDF[0] `= ln(3/3)+1 = 1` and IDF[1] `= ln(3/2)+1`. -/
theorem C1_example_pipeline :
    exampleVocab = ["кот", "сидит", "на", "окне", "спит"] ∧
    exampleToks.map (tfRow exampleVocab) =
      [some [1/4, 1/4, 1/4, 1/4, 0], some [1/2, 0, 0, 0, 1/2]] ∧
    exampleVocab.map (fun w => dfCount exampleToks w) = [2, 1, 1, 1, 1] ∧
    idf exampleToks.length (dfCount exampleToks "кот") = 1 ∧
    idf exampleToks.length (dfCount exampleToks "сидит") =
      Real.log (3 / 2) + 1 := by
  have hv : exampleVocab = ["кот", "сидит", "на", "окне", "спит"] := by decide
  have ht : exampleToks = [["кот", "сидит", "на", "окне"], ["кот", "спит"]] := by
    decide
  refine ⟨hv, ?_, by decide, ?_, ?_⟩
  · rw [ht, hv, List.map_cons, List.map_cons, List.map_nil,
      tfRow_eq_map _ _ (by decide), tfRow_eq_map _ _ (by decide),
      map_tf_eval _ _ [1, 1, 1, 1, 0] (by decide),
      map_tf_eval _ _ [1, 0, 0, 0, 1] (by decide)]
    norm_num
  · rw [show dfCount exampleToks "кот" = 2 from by decide,
      show exampleToks.length = 2 from by decide, idf]
    norm_num [Real.log_one]
  · rw [show dfCount exampleToks "сидит" = 1 from by decide,
      show exampleToks.length = 2 from by decide, idf]
    norm_num

/-- C2: the `/lsa` handler performs no validation whatsoever of
`n_components`; for every component count (including `0`, negative values
and values `≥ min(doc_count, vocab_size)`) it returns exactly what the
external decomposition routine returns, so any rejection is the library's
own failure, never an explicit validation error of the handler.  This
refutes the claim that the operation rejects out-of-range values itself:
the code silently defers, as the spec's §4.4 notes about the original
behavior. -/
theorem C2_lsa_no_validation (svd : ℤ → List (List ℝ) → LsaResult)
    (m : List (List ℝ)) (n : ℤ) :
    lsa svd m n = svd n m := rfl

/-- C3: the term-frequency computation has no zero-token guard.  On the
corpus `["кот", ""]` the second tokenized document is empty, and computing
its TF row raises `ZeroDivisionError` (modelled `none`) instead of
producing the all-zero row `[0]` the claim requires. -/
theorem C3_empty_doc_division_by_zero :
    vocabulary (tokens ["кот", ""]) = ["кот"] ∧
    tokens ["кот", ""] = [["кот"], []] ∧
    tfRow ["кот"] [] = none := by
  exact ⟨by decide, by decide, rfl⟩

/-- C4: for every tokenized corpus the built vocabulary has no duplicate
terms, and it equals the first-occurrence-ordered deduplication
(`specDedup`) of all tokens scanned in document order. -/
theorem C4_vocabulary_nodup_first_occurrence (toks : List (List String)) :
    (vocabulary toks).Nodup ∧ vocabulary toks = specDedup toks.flatten :=
  ⟨vocabulary_eq_specDedup toks ▸ nodup_specDedup toks.flatten,
    vocabulary_eq_specDedup toks⟩

/-- C9: the `/bag-of-words` handler is deterministic and mutation-free:
it passes the process state through unchanged, and a repeated call with
the identical text against the resulting state returns the identical
vector. -/
theorem C9_bag_of_words_deterministic (st : ServerState) (text : String) :
    (bag_of_words_endpoint st text).1 = st ∧
    (bag_of_words_endpoint (bag_of_words_endpoint st text).1 text).2 =
      (bag_of_words_endpoint st text).2 :=
  ⟨rfl, rfl⟩

/-- C5: for a non-empty tokenized document, each TF entry is the term's
count divided by the token count, every entry lies in `[0, 1]`, and a
document containing no vocabulary term gets the all-zero row. -/
theorem C5_tf_entries (voc doc : List String) (h : doc.length ≠ 0) :
    tfRow voc doc =
      some (voc.map fun w => (doc.count w : ℚ) / (doc.length : ℚ)) ∧
    (∀ q ∈ voc.map fun w => (doc.count w : ℚ) / (doc.length : ℚ),
      0 ≤ q ∧ q ≤ 1) ∧
    ((∀ w ∈ voc, w ∉ doc) →
      tfRow voc doc = some (List.replicate voc.length 0)) := by
  refine ⟨tfRow_eq_map voc doc h, ?_, ?_⟩
  · intro q hq
    rcases List.mem_map.mp hq with ⟨w, _, rfl⟩
    have hl : (0 : ℚ) < (doc.length : ℚ) := by
      exact_mod_cast Nat.pos_of_ne_zero h
    refine ⟨div_nonneg (by positivity) hl.le, ?_⟩
    rw [div_le_one hl]
    exact_mod_cast List.count_le_length w doc
  · intro hnone
    rw [tfRow_eq_map voc doc h]
    congr 1
    refine List.eq_replicate_iff.mpr ⟨by simp, ?_⟩
    intro b hb
    rcases List.mem_map.mp hb with ⟨w, hw, rfl⟩
    rw [List.count_eq_zero.mpr (hnone w hw), Nat.cast_zero, zero_div]

/-- C5 witness: the theorem instantiated at the document `["кот"]`. -/
theorem C5_witness :
    (0 ≤ ((["кот"] : List String).count "кот" : ℚ) /
        (((["кот"] : List String)).length : ℚ) ∧
      ((["кот"] : List String).count "кот" : ℚ) /
        (((["кот"] : List String)).length : ℚ) ≤ 1) ∧
    tfRow ["на"] ["кот"] =
      some (List.replicate (["на"] : List String).length 0) :=
  ⟨(C5_tf_entries ["кот"] ["кот"] (by decide)).2.1 _
      (List.mem_map_of_mem _ (by decide)),
    (C5_tf_entries ["на"] ["кот"] (by decide)).2.2 (by decide)⟩

/-- C6: each smoothed IDF entry computed from the document frequencies of
the pipeline is strictly positive, and IDF is monotonically non-increasing
in document frequency for a fixed document count. -/
theorem C6_idf_positive_antitone (toks : List (List String)) (w₁ w₂ : String)
    (h : dfCount toks w₂ ≤ dfCount toks w₁) :
    0 < idf toks.length (dfCount toks w₁) ∧
    idf toks.length (dfCount toks w₁) ≤
      idf toks.length (dfCount toks w₂) := by
  have hdf : dfCount toks w₁ ≤ toks.length := List.length_filter_le _ _
  constructor
  · rw [idf]
    have h1 : (1 : ℝ) ≤
        ((toks.length : ℝ) + 1) / ((dfCount toks w₁ : ℝ) + 1) := by
      rw [le_div_iff₀ (by positivity)]
      have h2 : (dfCount toks w₁ : ℝ) ≤ (toks.length : ℝ) := by
        exact_mod_cast hdf
      linarith
    have h3 := Real.log_nonneg h1
    linarith
  · rw [idf, idf]
    have h2 : (dfCount toks w₂ : ℝ) ≤ (dfCount toks w₁ : ℝ) := by
      exact_mod_cast h
    gcongr

/-- C6 witness: the theorem instantiated on the example corpus, with
`df("кот") = 2 ≥ df("сидит") = 1`. -/
theorem C6_witness :
    0 < idf exampleToks.length (dfCount exampleToks "кот") ∧
    idf exampleToks.length (dfCount exampleToks "кот") ≤
      idf exampleToks.length (dfCount exampleToks "сидит") :=
  C6_idf_positive_antitone exampleToks "кот" "сидит" (by decide)

/-- C7: the bag-of-words vector has length exactly `vocab_size`, its `j`-th
entry is `1` exactly when vocabulary term `j` occurs as a token of the
lowercased whitespace-split input (exact match), and the empty string
yields the all-zero vector. -/
theorem C7_bag_of_words_vector (voc : List String) (text : String) :
    (bag_of_words voc text).length = voc.length ∧
    (∀ j, j < voc.length →
      (bag_of_words voc text).getD j 0 =
        if voc.getD j "" ∈ pySplit (pyLower text) then 1 else 0) ∧
    bag_of_words voc "" = List.replicate voc.length 0 := by
  refine ⟨by simp [bag_of_words], ?_, ?_⟩
  · intro j hj
    rw [bag_of_words, List.getD_eq_getElem?_getD, List.getElem?_map,
      List.getElem?_eq_getElem hj, List.getD_eq_getElem?_getD,
      List.getElem?_eq_getElem hj]
    rfl
  · rw [bag_of_words, show pySplit (pyLower "") = [] from rfl]
    simp

/-- C7 witness: the theorem instantiated at vocabulary `["кот","спит"]`
and query `"кот"`. -/
theorem C7_witness :
    (bag_of_words ["кот", "спит"] "кот").getD 0 0 =
      if (["кот", "спит"] : List String).getD 0 "" ∈
          pySplit (pyLower "кот") then 1 else 0 :=
  (C7_bag_of_words_vector ["кот", "спит"] "кот").2.1 0 (by decide)

/-- C8: on a missing corpus file the loader falls back to exactly one
non-empty synthetic document; on a present file it returns the stripped,
lowercased lines that are non-empty, in file order. -/
theorem C8_load_corpus_fallback :
    (load_corpus none).length = 1 ∧
    (∀ d ∈ load_corpus none, d ≠ "") ∧
    (∀ lines, load_corpus (some lines) =
      ((lines.map fun line => pyLower (pyStrip line)).filter
        fun l => decide (l ≠ ""))) :=
  ⟨rfl, fun _ hd => (load_corpus_doc_ne_empty hd).1, load_corpus_some⟩

/-- C8 witness: the fallback document is non-empty. -/
theorem C8_witness : "файл корпус_дмитрий.txt не найден" ≠ "" :=
  C8_load_corpus_fallback.2.1 "файл корпус_дмитрий.txt не найден" (by decide)

/-- C10: every document the loader produces (file lines or the fallback)
is a non-empty string whose whitespace split has at least one token, so
the TF division never divides by zero on the startup corpus, and every TF
row of the startup corpus sums to exactly 1. -/
theorem C10_startup_corpus_tf_safe (file : Option (List String)) :
    (∀ d ∈ load_corpus file, d ≠ "" ∧ pySplit d ≠ []) ∧
    (∀ doc ∈ tokens (load_corpus file),
      ∃ r, tfRow (vocabulary (tokens (load_corpus file))) doc = some r ∧
        r.sum = 1) := by
  refine ⟨fun _ hd => load_corpus_doc_ne_empty hd, ?_⟩
  intro doc hdoc
  rcases List.mem_map.mp hdoc with ⟨d, hd, rfl⟩
  have hne : (pySplit d).length ≠ 0 := by
    intro h0
    exact (load_corpus_doc_ne_empty hd).2 (List.length_eq_zero.mp h0)
  have hnd : (vocabulary (tokens (load_corpus file))).Nodup := by
    rw [vocabulary_eq_specDedup]
    exact nodup_specDedup _
  have hsub : ∀ t ∈ pySplit d,
      t ∈ vocabulary (tokens (load_corpus file)) := by
    intro t ht
    rw [vocabulary_eq_specDedup, mem_specDedup, List.mem_flatten]
    exact ⟨pySplit d, List.mem_map_of_mem _ hd, ht⟩
  exact tfRow_sum_eq_one hnd hsub hne

/-- C10 witness: the theorem instantiated at the one-line file
`["кот спит"]`. -/
theorem C10_witness :
    ("кот спит" ≠ "" ∧ pySplit "кот спит" ≠ []) ∧
    ∃ r, tfRow (vocabulary (tokens (load_corpus (some ["кот спит"]))))
        (pySplit "кот спит") = some r ∧ r.sum = 1 :=
  ⟨(C10_startup_corpus_tf_safe (some ["кот спит"])).1 "кот спит" (by decide),
    (C10_startup_corpus_tf_safe (some ["кот спит"])).2 (pySplit "кот спит")
      (by decide)⟩

end Server
